import Mathlib

/-!
Verification of the transit-routing program (`node.py`).

The program computes an itinerary between two stations of a multi-line
transit network, minimizing first the number of line transfers, then the
total distance.  This file gives a shallow embedding of the Python source:

* Python `float` distances are modelled as `Int`: every distance the
  program ever constructs is the integer 1 (the `Connection` default and
  the only value `from_line_dict` uses), on which float arithmetic and
  comparison are exact.  The sentinel `float('inf')` used for the initial
  best path is modelled by working in `WithTop Int` for the `distance`
  field of `Path` (Python: `inf + x = inf`, `x < inf` is true, `inf < x`
  is false, matching `WithTop`).
* Python `int` is modelled as `Int`; `sys.maxsize` is `2^63 - 1`.
* Python `dict`s are modelled as insertion-ordered association lists and
  Python `set`s as insertion-ordered duplicate-free lists (CPython set
  iteration order is hash-dependent; every concrete fact proved below is
  independent of that order, which has been checked by hand at each
  concrete input).
* Code that can raise (`IndexError` on `list[-1]` / `list.pop()` of an
  empty list, `KeyError` on a missing dict key) is modelled with
  `Except PyErr` / `Option`; the unbounded `while` loop of the BFS in
  `_find_needed_lines` is modelled with explicit fuel, `PyErr.fuelOut`
  marking exhaustion.
-/

namespace Trains

abbrev NodeId := String
abbrev LineId := String

/-- Python `sys.maxsize` on a 64-bit platform, the initial transfer count
of the sentinel best path in `route_to`. -/
def maxsize : Int := 2 ^ 63 - 1

/-- Python `set.add` / adding a missing key: append the element if absent.
Set iteration order is modelled as insertion order. -/
def insertIfAbsent {α : Type} [DecidableEq α] (x : α) (s : List α) : List α :=
  if x ∈ s then s else s ++ [x]

/-- `list(set(xs))` / building a set by repeated `add`: first-occurrence
deduplication. -/
def dedupFirst {α : Type} [DecidableEq α] (l : List α) : List α :=
  l.foldl (fun acc x => insertIfAbsent x acc) []

/-- Python `s.update(t)`: insert the elements of `t` into `s` in order. -/
def unionList {α : Type} [DecidableEq α] (s t : List α) : List α :=
  t.foldl (fun acc x => insertIfAbsent x acc) s

/-- Python-exception outcomes of the modelled code, plus fuel exhaustion
for the one loop whose termination is in question. -/
inductive PyErr where
  | indexError
  | keyError
  | fuelOut
deriving DecidableEq, Repr

/-- `Connection` (`node.py`): a line-tagged edge to a neighbouring node.
`node_id` is the target node, `distance` defaults to 1. -/
structure Connection where
  node_id : NodeId
  line_id : LineId
  distance : Int := 1
deriving DecidableEq, Repr

/-- `Transfer` (`node.py`): a change of line at a node. -/
structure Transfer where
  node_id : NodeId
  from_line : LineId
  to_line : LineId
deriving DecidableEq, Repr

/-- `Path` (`node.py`): an itinerary together with its incrementally
maintained cost fields. -/
structure Path where
  path : List Connection
  distance : WithTop Int
  num_stations : Int
  num_transfers : Int
  transfers : List Transfer
deriving DecidableEq

/-- `Path.__lt__`: fewer transfers wins; ties are broken by smaller
distance. -/
def Path.lt (a b : Path) : Bool :=
  if a.num_transfers < b.num_transfers then true
  else if a.num_transfers > b.num_transfers then false
  else decide (a.distance < b.distance)

/-- `Path.append`: push a connection, update distance and station count,
and record a transfer when the new connection's line differs from the
previous one (`len(self.path) >= 2` after the push, i.e. the old list was
nonempty, and `value.line_id != self.path[-2].line_id`). -/
def Path.append (p : Path) (value : Connection) : Path :=
  match p.path.getLast? with
  | some last =>
    if value.line_id ≠ last.line_id then
      ⟨p.path ++ [value], p.distance + (value.distance : Int), p.num_stations + 1,
       p.num_transfers + 1, p.transfers ++ [⟨last.node_id, last.line_id, value.line_id⟩]⟩
    else
      ⟨p.path ++ [value], p.distance + (value.distance : Int), p.num_stations + 1,
       p.num_transfers, p.transfers⟩
  | none =>
    ⟨p.path ++ [value], p.distance + (value.distance : Int), p.num_stations + 1,
     p.num_transfers, p.transfers⟩

/-- Subtraction of a finite quantity, as Python `float` subtraction acts on
the values reachable here: `inf - x = inf`, finite minus finite is exact. -/
def wsub (a : WithTop Int) (b : Int) : WithTop Int :=
  WithTop.map (fun x => x - b) a

/-- `Path.pop`: remove the last connection, update distance and station
count, and drop the last recorded transfer when the removed connection's
line differs from the new last one.  `none` models the `IndexError` Python
raises when `self.path` is empty (`self.path[-1]`) or when a transfer must
be dropped but `self.transfers` is empty (`self.transfers.pop()`). -/
def Path.pop (p : Path) : Option (Path × Connection) :=
  match p.path.getLast? with
  | none => none
  | some last =>
    match p.path.dropLast.getLast? with
    | some prev =>
      if last.line_id ≠ prev.line_id then
        match p.transfers.getLast? with
        | none => none
        | some _ =>
          some (⟨p.path.dropLast, wsub p.distance last.distance, p.num_stations - 1,
                 p.num_transfers - 1, p.transfers.dropLast⟩, last)
      else
        some (⟨p.path.dropLast, wsub p.distance last.distance, p.num_stations - 1,
               p.num_transfers, p.transfers⟩, last)
    | none =>
      some (⟨p.path.dropLast, wsub p.distance last.distance, p.num_stations - 1,
             p.num_transfers, p.transfers⟩, last)

/-- The empty working path `Path([], 0, 0, 0, [])` that both
`Network.route_to`'s search and `_get_best_path` start from. -/
def emptyPath : Path := ⟨[], 0, 0, 0, []⟩

/-- Number of adjacent connection pairs whose line ids differ (the
quantity `Path.num_transfers` is supposed to track). -/
def transferCount : List Connection → Nat
  | [] => 0
  | [_] => 0
  | a :: b :: rest => (if a.line_id ≠ b.line_id then 1 else 0) + transferCount (b :: rest)

/-- The `Path` invariants of the spec, with the station-count clause as
the code actually maintains it: `num_stations` starts at 0 in
`Path([], 0, 0, 0, [])` and gains exactly 1 per appended connection, so it
equals the length of the connection sequence, not length + 1. -/
def PathInv (p : Path) : Prop :=
  p.distance = (((p.path.map Connection.distance).sum : Int) : WithTop Int) ∧
  p.num_transfers = p.transfers.length ∧
  p.num_transfers = transferCount p.path ∧
  p.num_stations = p.path.length

/-- Paths reachable from the empty working path by `append` and by `pop`
applied only where Python's `pop` succeeds. -/
inductive Path.Reachable : Path → Prop
  | empty : Path.Reachable emptyPath
  | app {p : Path} (c : Connection) : Path.Reachable p → Path.Reachable (p.append c)
  | popped {p q : Path} {c : Connection} :
      Path.Reachable p → p.pop = some (q, c) → Path.Reachable q

/-- `Node` (`node.py`): a station and its outgoing connections. -/
structure Node where
  node_id : NodeId
  connections : List Connection
deriving DecidableEq, Repr

/-- `Network`: the `node_dict` mapping of node ids to nodes, as an
insertion-ordered association list.  The `MultiGraph` superclass is used
by the routing code only through `self.nodes`, which iterates the nodes in
the same insertion order (all edge targets of the networks below are
themselves keys of `node_dict`, so `add_edge` introduces no extra node). -/
structure Network where
  node_dict : List (NodeId × Node)
deriving DecidableEq, Repr

/-- `self.node_dict[n].connections`.  Python raises `KeyError` for an id
absent from the dict; every lookup the code below performs on the networks
of the claims is on an id present in the network, where the two agree. -/
def Network.connectionsOf (net : Network) (n : NodeId) : List Connection :=
  ((net.node_dict.lookup n).map Node.connections).getD []

/-- A sequence tree (`{Connection: {Connection: ...}}`), the Python dict
modelled as the insertion-ordered list of its entries. -/
inductive SeqTree where
  | mk : List (Connection × SeqTree) → SeqTree

/-- The entry list of a sequence tree. -/
def SeqTree.entries : SeqTree → List (Connection × SeqTree)
  | .mk es => es

/-- `_get_sequence_tree`: expand a raw station sequence into the tree of
line assignments.  At each hop the loop keeps a connection to the next
node iff the current line is still unset (`currentLine == None`), stays the
same, or the connection's line was never visited on this branch; the
branch then continues with the line added to the visited set (the code
mutates only `linesVisitedCopy`, which is reset from `linesVisited` after
each iteration, so every iteration tests against `linesVisited` itself).
The `[]` case is unreachable from `route_to` (raw paths always contain at
least the start node; Python would raise `IndexError` on `raw_path[0]`). -/
def getSequenceTree (net : Network) : List NodeId → List LineId → Option LineId → SeqTree
  | [], _, _ => .mk []
  | [_], _, _ => .mk []
  | n0 :: n1 :: rest, lv, cl =>
    .mk ((net.connectionsOf n0).filterMap fun c =>
      if c.node_id = n1 ∧ (cl = none ∨ some c.line_id = cl ∨ c.line_id ∉ lv) then
        some (c, getSequenceTree net (n1 :: rest)
          (insertIfAbsent c.line_id lv) (some c.line_id))
      else none)

/-- `_get_best_path`: branch-and-bound over a sequence tree.  At a leaf
(empty dict) the code reads `path.path[-1]` — `IndexError` when the
in-progress itinerary is empty — and replaces the shared best path when
the leaf is the destination and strictly better (`min_path.set_self`
copies, so the update is by value).  The `for connection in tree` loop
appends a connection, descends only while the extended itinerary is still
strictly better than the current best, and pops — modelled by reusing the
unextended `path` for the next entry while threading the best path.  Fuel
bounds the recursion depth (the Python recursion always terminates, one
level per tree level; every concrete run below has ample fuel). -/
def getBestPath (dest : NodeId) : Nat → SeqTree → Path → Path → Except PyErr Path
  | 0, _, _, _ => .error .fuelOut
  | _ + 1, .mk [], minPath, path =>
    (match path.path.getLast? with
     | none => .error .indexError
     | some last =>
       if last.node_id = dest ∧ path.lt minPath then .ok path else .ok minPath)
  | fuel + 1, .mk (e :: es), minPath, path =>
    (e :: es).foldl
      (fun acc entry =>
        match acc with
        | .error err => .error err
        | .ok mp2 =>
          if (path.append entry.1).lt mp2 then
            getBestPath dest fuel entry.2 mp2 (path.append entry.1)
          else .ok mp2)
      (.ok minPath)

/-- `_get_all_raw_paths`: depth-first enumeration of simple station
sequences from `start` to `endN`.  The function marks `start` visited and
appends it to the shared `path` accumulator, loops over the connected
nodes — skipping a neighbour when none of the *current* node's connections
uses a needed line (the inner `for connection ...; break` loop computes
exactly that) or when it is visited — recurses, then pops and unmarks.
`visited` mutations are invisible to the caller (modelled by passing the
extended set down without returning it) while `path` is threaded
explicitly because it is the function's mutable default argument, shared
across top-level invocations; the result is the accumulated path set with
the final state of that shared accumulator.  `fuel = 0` returns the state
unchanged (the Python recursion always terminates; every concrete run
below has ample fuel). -/
def getAllRawPaths (net : Network) : Nat → NodeId → NodeId → List LineId →
    List NodeId → List (List NodeId) → List NodeId →
    List (List NodeId) × List NodeId
  | 0, _, _, _, _, paths, path => (paths, path)
  | fuel + 1, start, endN, needed, visited, paths, path =>
    if start = endN then
      (insertIfAbsent (path ++ [start]) paths, (path ++ [start]).dropLast)
    else
      let r := (dedupFirst ((net.connectionsOf start).map (·.node_id))).foldl
        (fun (st : List (List NodeId) × List NodeId) node =>
          if (net.connectionsOf start).any (fun c => decide (c.line_id ∈ needed)) then
            if node ∈ insertIfAbsent start visited then st
            else getAllRawPaths net fuel node endN needed
              (insertIfAbsent start visited) st.1 st.2
          else st)
        (paths, path ++ [start])
      (r.1, r.2.dropLast)

/-- The `if len(...) > 1` body of the line-graph construction in
`_find_needed_lines`: one pass over a junction's connections, adding each
line as a key of the graph if missing and collecting the junction's line
set (`connections_to_current_line`). -/
def collectLines : List Connection → List (LineId × List LineId) → List LineId →
    List (LineId × List LineId) × List LineId
  | [], lg, ctcl => (lg, ctcl)
  | c :: cs, lg, ctcl =>
    let lg2 := if (lg.lookup c.line_id).isSome then lg else lg ++ [(c.line_id, [])]
    collectLines cs lg2 (insertIfAbsent c.line_id ctcl)

/-- `line_graph[key].update(lines)` for one key. -/
def updateValue (lg : List (LineId × List LineId)) (key : LineId)
    (add : List LineId) : List (LineId × List LineId) :=
  lg.map fun p => if p.1 = key then (p.1, unionList p.2 add) else p

/-- The line-adjacency graph of `_find_needed_lines`: for every junction
(node with more than one connection) link all its lines pairwise, then
remove every line from its own neighbour set (`line_graph[key].remove(key)`
never raises: a key's set always contains the key when reached). -/
def buildLineGraph (net : Network) : List (LineId × List LineId) :=
  let lg := net.node_dict.foldl (fun lg p =>
    if 1 < p.2.connections.length then
      let r := collectLines p.2.connections lg []
      r.2.foldl (fun lg2 line => updateValue lg2 line r.2) r.1
    else lg) []
  lg.map fun p => (p.1, p.2.erase p.1)

/-- The `for line in line_graph[current_line]` loop of the BFS: stop and
clear the queue on reaching `endl`, otherwise enqueue unvisited lines. -/
def bfsScan (endl : LineId) : List LineId → List LineId → List LineId →
    List LineId × List LineId
  | [], queue, visited => (queue, visited)
  | l :: ls, queue, visited =>
    if l = endl then ([], visited)
    else if l ∈ visited then bfsScan endl ls queue visited
    else bfsScan endl ls (queue ++ [l]) (visited ++ [l])

/-- The `while queue:` loop of the BFS in `_find_needed_lines`.  The
`"MARK"` depth marker is re-enqueued every time it is popped, so the loop
can run forever; fuel counts loop iterations and `PyErr.fuelOut` for every
fuel is how this embedding expresses non-termination.  A missing
`line_graph` key is Python's `KeyError`. -/
def bfsLoop (lg : List (LineId × List LineId)) (endl : LineId) :
    Nat → List LineId → List LineId → List LineId → Nat →
    Except PyErr (Nat × List LineId)
  | 0, _, _, _, _ => .error .fuelOut
  | _ + 1, [], _, incr, length => .ok (length, incr)
  | fuel + 1, q0 :: qrest, visited, incr, length =>
    if q0 = "MARK" then
      bfsLoop lg endl fuel (qrest ++ ["MARK"]) visited visited (length + 1)
    else
      match lg.lookup q0 with
      | none => .error .keyError
      | some nbrs =>
        let r := bfsScan endl nbrs qrest visited
        bfsLoop lg endl fuel r.1 r.2 incr length

/-- The `for end in end_lines` loop of `_find_needed_lines` for a fixed
start line.  State: `(shortest_path, possibles, startend)`.  Each pair
adds the end line to `startend`, runs the BFS, and keeps the
`incremental_visited` set of the strictly shortest pair (merging on
ties). -/
def bfsInner (lg : List (LineId × List LineId)) (fuel : Nat) (startL : LineId) :
    List LineId → Nat × List LineId × List LineId →
    Except PyErr (Nat × List LineId × List LineId)
  | [], st => .ok st
  | endL :: rest, st =>
    match bfsLoop lg endL fuel [startL, "MARK"] [startL] [] 1 with
    | .error e => .error e
    | .ok r =>
      if r.1 < st.1 then
        bfsInner lg fuel startL rest (r.1, r.2, insertIfAbsent endL st.2.2)
      else if r.1 = st.1 then
        bfsInner lg fuel startL rest
          (st.1, unionList st.2.1 r.2, insertIfAbsent endL st.2.2)
      else bfsInner lg fuel startL rest (st.1, st.2.1, insertIfAbsent endL st.2.2)

/-- The `for start in start_lines` loop of `_find_needed_lines`: add the
start line to `startend`, then run the inner loop over all end lines. -/
def bfsOuter (lg : List (LineId × List LineId)) (fuel : Nat)
    (endLines : List LineId) :
    List LineId → Nat × List LineId × List LineId →
    Except PyErr (Nat × List LineId × List LineId)
  | [], st => .ok st
  | startL :: rest, st =>
    match bfsInner lg fuel startL endLines
        (st.1, st.2.1, insertIfAbsent startL st.2.2) with
    | .error e => .error e
    | .ok st2 => bfsOuter lg fuel endLines rest st2

/-- `_find_needed_lines`: for every pair of a start-station line and an
end-station line (`get_connected_lines` does not deduplicate), run the
level-synchronised BFS over the line-adjacency graph starting with
`shortest_path = maxsize`, then union the best `incremental_visited` set
with the collected start/end lines. -/
def findNeededLines (net : Network) (fuel : Nat) (startN endN : NodeId) :
    Except PyErr (List LineId) :=
  match bfsOuter (buildLineGraph net) fuel
      ((net.connectionsOf endN).map (·.line_id))
      ((net.connectionsOf startN).map (·.line_id)) (2 ^ 63 - 1, [], []) with
  | .error e => .error e
  | .ok st => .ok (unionList st.2.1 st.2.2)

/-- Python's stable `sorted(raw_paths, key=len)`: insertion sort that
keeps equal-length elements in input order. -/
def insertByLen (x : List NodeId) : List (List NodeId) → List (List NodeId)
  | [] => [x]
  | y :: ys => if y.length ≤ x.length then y :: insertByLen x ys else x :: y :: ys

/-- Sorting the raw paths by length, cheapest candidates first. -/
def sortByLen (l : List (List NodeId)) : List (List NodeId) :=
  l.foldl (fun acc x => insertByLen x acc) []

/-- `Path([], float('inf'), 0, maxsize, [])`, the sentinel the best path
starts from in `route_to`. -/
def sentinelPath : Path := ⟨[], ⊤, 0, maxsize, []⟩

/-- `route_to`, threading the module-level `path` default-argument object
of `_get_all_raw_paths` (`pathState`): the result is returned together
with the state that shared object is left in, so that a second call on the
same interpreter can be expressed. -/
def routeToSt (net : Network) (fuel : Nat) (start other : NodeId)
    (pathState : List NodeId) : Except PyErr Path × List NodeId :=
  match findNeededLines net fuel start other with
  | .error e => (.error e, pathState)
  | .ok needed =>
    ((sortByLen (getAllRawPaths net fuel start other needed [] [] pathState).1).foldlM
       (fun mp rp => getBestPath other fuel (getSequenceTree net rp [] none) mp emptyPath)
       sentinelPath,
     (getAllRawPaths net fuel start other needed [] [] pathState).2)

/-- `route_to` as called once in a fresh interpreter (empty accumulator). -/
def routeTo (net : Network) (fuel : Nat) (start other : NodeId) :
    Except PyErr Path :=
  (routeToSt net fuel start other []).1

/-- One position of the construction loop of `from_line_dict`: position
`i` of a line contributes a connection to the next station if it is the
first (`line[i+1]`, `IndexError` on a one-station line), to the previous
if it is the last, else to both.  The two latter `.error` branches are
unreachable (`i ≥ 1` there, so `line[i-1]` exists). -/
def lineConnsAt (lid : LineId) (stations : List NodeId) (node : NodeId)
    (i : Nat) : Except PyErr (List Connection) :=
  if stations.get? i = some node then
    if i = 0 then
      match stations.get? (i + 1) with
      | none => .error .indexError
      | some nxt => .ok [⟨nxt, lid, 1⟩]
    else if i = stations.length - 1 then
      match stations.get? (i - 1) with
      | none => .error .indexError
      | some prv => .ok [⟨prv, lid, 1⟩]
    else
      match stations.get? (i - 1), stations.get? (i + 1) with
      | some prv, some nxt => .ok [⟨prv, lid, 1⟩, ⟨nxt, lid, 1⟩]
      | _, _ => .error .indexError
  else .ok []

/-- The connection list `from_line_dict` builds for one node: iterate the
lines in insertion order and the positions of each line in order,
appending each position's contribution. -/
def connectionsForNode (dict : List (LineId × List NodeId)) (node : NodeId) :
    Except PyErr (List Connection) :=
  dict.foldlM (fun acc p =>
    (List.range p.2.length).foldlM (fun acc2 i => do
      let cs ← lineConnsAt p.1 p.2 node i
      pure (acc2 ++ cs)) acc) []

/-- The node set of `from_line_dict` (`nodes.update(line)` over all
lines), in insertion order. -/
def orderedNodes (dict : List (LineId × List NodeId)) : List NodeId :=
  dict.foldl (fun acc p => p.2.foldl (fun a n => insertIfAbsent n a) acc) []

/-- `from_line_dict`: build the node dictionary.  The code performs no
validation: an empty line map yields an empty network and a one-station
line raises `IndexError` (`line[i+1]` at `i = 0`). -/
def fromLineDict (dict : List (LineId × List NodeId)) : Except PyErr Network := do
  let nd ← (orderedNodes dict).foldlM (fun acc n => do
    let cs ← connectionsForNode dict n
    pure (acc ++ [(n, (⟨n, cs⟩ : Node))])) []
  pure ⟨nd⟩

/-- The example line map of the spec:
`{"red": ["D","A","B"], "blue": ["F","A","B"], "green": ["E","A","C","B"]}`. -/
def exDict : List (LineId × List NodeId) :=
  [("red", ["D", "A", "B"]), ("blue", ["F", "A", "B"]),
   ("green", ["E", "A", "C", "B"])]

/-- The network built from the example line map. -/
def netC1 : Network :=
  match fromLineDict exDict with
  | .ok n => n
  | .error _ => ⟨[]⟩

/-- Two disjoint lines: the end line is unreachable from the start line in
the line-adjacency graph. -/
def discDict : List (LineId × List NodeId) :=
  [("red", ["A", "B", "C"]), ("blue", ["D", "E", "F"])]

/-- The network built from the two disjoint lines. -/
def netDisc : Network :=
  match fromLineDict discDict with
  | .ok n => n
  | .error _ => ⟨[]⟩

/-- The spec's "disconnected network (station with no lines)": an isolated
station `X` beside a two-station red line, built directly as a `node_dict`
the way `main.py` builds its `NODE_DICT`. -/
def netIso : Network :=
  ⟨[("X", ⟨"X", []⟩),
    ("A", ⟨"A", [⟨"B", "red", 1⟩]⟩),
    ("B", ⟨"B", [⟨"A", "red", 1⟩]⟩)]⟩

/-- Root-to-node branches of a sequence tree: `Branch t cs` holds when
`cs` labels a descending chain of entries starting at the root of `t`. -/
inductive SeqTree.Branch : SeqTree → List Connection → Prop
  | nil (t : SeqTree) : SeqTree.Branch t []
  | cons {entries : List (Connection × SeqTree)} {c : Connection}
      {sub : SeqTree} {cs : List Connection} :
      (c, sub) ∈ entries → SeqTree.Branch sub cs →
      SeqTree.Branch (.mk entries) (c :: cs)

/-- Spec-side validity of a line assignment along a raw path (§4.4 of the
spec): each hop takes a connection of `n_i` targeting `n_{i+1}` whose line
equals the line of the immediately preceding edge, or has not appeared
earlier on this branch; the hop's line is then added to the used set. -/
def ValidAssign (net : Network) :
    List NodeId → Option LineId → List LineId → List Connection → Prop
  | _, _, _, [] => True
  | [], _, _, _ :: _ => False
  | [_], _, _, _ :: _ => False
  | n0 :: n1 :: rest, prev, used, c :: cs =>
      c ∈ net.connectionsOf n0 ∧ c.node_id = n1 ∧
      (prev = none ∨ some c.line_id = prev ∨ c.line_id ∉ used) ∧
      ValidAssign net (n1 :: rest) (some c.line_id)
        (insertIfAbsent c.line_id used) cs

/-- Spec-side description of `from_line_dict`'s per-position contribution
(§4.1 of the spec): the first station of a line gets one unit-distance
connection to its successor, the last one to its predecessor, and every
interior station two (predecessor and successor). -/
def contribAt (lid : LineId) (stations : List NodeId) (node : NodeId)
    (i : Nat) : List Connection :=
  if stations.get? i = some node then
    if i = 0 then
      ((stations.get? (i + 1)).map fun nxt => [(⟨nxt, lid, 1⟩ : Connection)]).getD []
    else if i = stations.length - 1 then
      ((stations.get? (i - 1)).map fun prv => [(⟨prv, lid, 1⟩ : Connection)]).getD []
    else
      (((stations.get? (i - 1)).bind fun prv =>
        (stations.get? (i + 1)).map fun nxt =>
          [(⟨prv, lid, 1⟩ : Connection), (⟨nxt, lid, 1⟩ : Connection)])).getD []
  else []

/-- Spec-side connection list of a node: the concatenation, over lines and
matching positions, of the endpoint/interior contributions. -/
def builtConns (dict : List (LineId × List NodeId)) (node : NodeId) :
    List Connection :=
  dict.flatMap fun p => (List.range p.2.length).flatMap (contribAt p.1 p.2 node)

/-- Claim C2, part of the statement: extension never decreases the
comparator's components. -/
theorem claim_C2 (p : Path) (c : Connection) (h : 0 ≤ c.distance) :
    p.num_transfers ≤ (p.append c).num_transfers ∧
    p.distance ≤ (p.append c).distance ∧
    (p.append c).lt p = false := by
  have hc : (0 : WithTop Int) ≤ (c.distance : Int) := by exact_mod_cast h
  have hd : p.distance ≤ p.distance + (c.distance : Int) := le_add_of_nonneg_right hc
  have hlt : ∀ q : Path, q.num_transfers = p.num_transfers →
      q.distance = p.distance + (c.distance : Int) → q.lt p = false := by
    intro q h1 h2
    unfold Path.lt
    rw [h1, h2, if_neg (lt_irrefl _), if_neg (lt_irrefl _)]
    exact decide_eq_false (not_lt.mpr hd)
  have hlt' : ∀ q : Path, q.num_transfers = p.num_transfers + 1 → q.lt p = false := by
    intro q h1
    unfold Path.lt
    rw [h1, if_neg (by omega), if_pos (by omega)]
  unfold Path.append
  cases hl : p.path.getLast? with
  | none =>
    refine ⟨le_refl _, hd, hlt _ rfl rfl⟩
  | some last =>
    by_cases hne : c.line_id ≠ last.line_id
    · simp only [if_pos hne]
      exact ⟨by omega, hd, hlt' _ rfl⟩
    · simp only [if_neg hne]
      exact ⟨le_refl _, hd, hlt _ rfl rfl⟩

/-- Witness for C2 at a concrete path and connection. -/
theorem claim_C2_witness :
    (0 : Int) ≤ (1 : Int) ∧
    (emptyPath.num_transfers ≤ (emptyPath.append ⟨"A", "red", 1⟩).num_transfers ∧
     emptyPath.distance ≤ (emptyPath.append ⟨"A", "red", 1⟩).distance ∧
     (emptyPath.append ⟨"A", "red", 1⟩).lt emptyPath = false) :=
  ⟨by norm_num, claim_C2 emptyPath ⟨"A", "red", 1⟩ (by norm_num)⟩

/-- Appending one connection adds 1 to the adjacent-differing-pair count
exactly when the old last connection's line differs from the new one. -/
theorem transferCount_concat (c : Connection) : ∀ l : List Connection,
    transferCount (l ++ [c]) =
      transferCount l +
        (l.getLast?.elim 0 fun last => if last.line_id ≠ c.line_id then 1 else 0)
  | [] => by simp [transferCount]
  | [a] => by simp [transferCount]
  | a :: b :: t => by
    have ih := transferCount_concat c (b :: t)
    simp only [List.cons_append, transferCount, List.append_eq] at ih ⊢
    rw [ih, List.getLast?_cons_cons]
    omega

/-- Introduction rule for `PathInv` on a structure literal. -/
theorem PathInv.intro {L : List Connection} {D : WithTop Int} {NS NT : Int}
    {TR : List Transfer}
    (hd : D = (((L.map Connection.distance).sum : Int) : WithTop Int))
    (ht : NT = TR.length) (hc : NT = transferCount L) (hs : NS = L.length) :
    PathInv ⟨L, D, NS, NT, TR⟩ := ⟨hd, ht, hc, hs⟩

/-- Unfolding of `Path.append` when the path is empty. -/
theorem Path.append_eq_none (p : Path) (c : Connection)
    (hl : p.path.getLast? = none) :
    p.append c = ⟨p.path ++ [c], p.distance + (c.distance : Int),
      p.num_stations + 1, p.num_transfers, p.transfers⟩ := by
  unfold Path.append
  split
  · rename_i last heq
    rw [hl] at heq
    exact Option.noConfusion heq
  · rfl

/-- Unfolding of `Path.append` when the path is nonempty. -/
theorem Path.append_eq_some (p : Path) (c last : Connection)
    (hl : p.path.getLast? = some last) :
    p.append c =
      if c.line_id ≠ last.line_id then
        ⟨p.path ++ [c], p.distance + (c.distance : Int), p.num_stations + 1,
         p.num_transfers + 1,
         p.transfers ++ [⟨last.node_id, last.line_id, c.line_id⟩]⟩
      else
        ⟨p.path ++ [c], p.distance + (c.distance : Int), p.num_stations + 1,
         p.num_transfers, p.transfers⟩ := by
  unfold Path.append
  split
  · rename_i last2 heq
    rw [hl] at heq
    injection heq with he
    subst he
    rfl
  · rename_i heq
    rw [hl] at heq
    exact Option.noConfusion heq

/-- Unfolding of `Path.pop` on an empty path: Python raises `IndexError`. -/
theorem Path.pop_eq_fail (p : Path) (hl : p.path.getLast? = none) :
    p.pop = none := by
  unfold Path.pop
  split
  · rfl
  · rename_i last heq
    rw [hl] at heq
    exact Option.noConfusion heq

/-- Unfolding of `Path.pop` on a one-connection path. -/
theorem Path.pop_eq_single (p : Path) (last : Connection)
    (hl : p.path.getLast? = some last)
    (hprev : p.path.dropLast.getLast? = none) :
    p.pop = some (⟨p.path.dropLast, wsub p.distance last.distance,
      p.num_stations - 1, p.num_transfers, p.transfers⟩, last) := by
  unfold Path.pop
  split
  · rename_i heq
    rw [hl] at heq
    exact Option.noConfusion heq
  · rename_i last2 heq
    rw [hl] at heq
    injection heq with he
    subst he
    split
    · rename_i prev heq2
      rw [hprev] at heq2
      exact Option.noConfusion heq2
    · rfl

/-- Unfolding of `Path.pop` when the two last connections share a line. -/
theorem Path.pop_eq_stay (p : Path) (last prev : Connection)
    (hl : p.path.getLast? = some last)
    (hprev : p.path.dropLast.getLast? = some prev)
    (hne : ¬last.line_id ≠ prev.line_id) :
    p.pop = some (⟨p.path.dropLast, wsub p.distance last.distance,
      p.num_stations - 1, p.num_transfers, p.transfers⟩, last) := by
  unfold Path.pop
  split
  · rename_i heq
    rw [hl] at heq
    exact Option.noConfusion heq
  · rename_i last2 heq
    rw [hl] at heq
    injection heq with he
    subst he
    split
    · rename_i prev2 heq2
      rw [hprev] at heq2
      injection heq2 with he2
      subst he2
      rw [if_neg hne]
    · rfl

/-- Unfolding of `Path.pop` when a transfer must be undone and one is
recorded. -/
theorem Path.pop_eq_transfer (p : Path) (last prev : Connection) (t : Transfer)
    (hl : p.path.getLast? = some last)
    (hprev : p.path.dropLast.getLast? = some prev)
    (hne : last.line_id ≠ prev.line_id)
    (htr : p.transfers.getLast? = some t) :
    p.pop = some (⟨p.path.dropLast, wsub p.distance last.distance,
      p.num_stations - 1, p.num_transfers - 1, p.transfers.dropLast⟩, last) := by
  unfold Path.pop
  split
  · rename_i heq
    rw [hl] at heq
    exact Option.noConfusion heq
  · rename_i last2 heq
    rw [hl] at heq
    injection heq with he
    subst he
    split
    · rename_i prev2 heq2
      rw [hprev] at heq2
      injection heq2 with he2
      subst he2
      rw [if_pos hne]
      split
      · rename_i heq3
        rw [htr] at heq3
        exact Option.noConfusion heq3
      · rfl
    · rename_i heq2
      rw [hprev] at heq2
      exact Option.noConfusion heq2

/-- Unfolding of `Path.pop` when a transfer must be undone but none is
recorded: Python raises `IndexError` popping the empty transfer list. -/
theorem Path.pop_eq_transfer_fail (p : Path) (last prev : Connection)
    (hl : p.path.getLast? = some last)
    (hprev : p.path.dropLast.getLast? = some prev)
    (hne : last.line_id ≠ prev.line_id)
    (htr : p.transfers.getLast? = none) :
    p.pop = none := by
  unfold Path.pop
  split
  · rfl
  · rename_i last2 heq
    rw [hl] at heq
    injection heq with he
    subst he
    split
    · rename_i prev2 heq2
      rw [hprev] at heq2
      injection heq2 with he2
      subst he2
      rw [if_pos hne]
      split
      · rfl
      · rename_i t heq3
        rw [htr] at heq3
        exact Option.noConfusion heq3
    · rename_i heq2
      rw [hprev] at heq2
      exact Option.noConfusion heq2

/-- `Path.append` preserves the path invariants. -/
theorem pathInv_append (p : Path) (c : Connection) (h : PathInv p) :
    PathInv (p.append c) := by
  obtain ⟨h1, h2, h3, h4⟩ := h
  have hdist : p.distance + (c.distance : Int) =
      ((((p.path ++ [c]).map Connection.distance).sum : Int) : WithTop Int) := by
    rw [h1, ← WithTop.coe_add]
    norm_cast
    simp
  have hlen : (p.num_stations + 1 : Int) = (p.path ++ [c]).length := by
    rw [h4]
    simp
  cases hl : p.path.getLast? with
  | none =>
    have hp : p.path = [] := by simpa using hl
    rw [Path.append_eq_none p c hl]
    refine PathInv.intro hdist h2 ?_ hlen
    rw [hp] at h3 ⊢
    simpa [transferCount] using h3
  | some last =>
    have htc : transferCount (p.path ++ [c]) =
        transferCount p.path + (if last.line_id ≠ c.line_id then 1 else 0) := by
      rw [transferCount_concat, hl]
      rfl
    rw [Path.append_eq_some p c last hl]
    by_cases hne : c.line_id ≠ last.line_id
    · rw [if_pos hne]
      refine PathInv.intro hdist ?_ ?_ hlen
      · rw [h2]
        simp
      · rw [htc, if_pos (Ne.symm hne)]
        push_cast
        omega
    · rw [if_neg hne]
      refine PathInv.intro hdist h2 ?_ hlen
      rw [htc, if_neg (fun hh => hne (Ne.symm hh))]
      push_cast
      omega

/-- `Path.pop` preserves the path invariants whenever it succeeds. -/
theorem pathInv_pop (p q : Path) (c : Connection) (hpop : p.pop = some (q, c))
    (h : PathInv p) : PathInv q := by
  obtain ⟨h1, h2, h3, h4⟩ := h
  cases hl : p.path.getLast? with
  | none =>
    rw [Path.pop_eq_fail p hl] at hpop
    exact Option.noConfusion hpop
  | some last =>
    have hsplit : p.path.dropLast ++ [last] = p.path :=
      List.dropLast_append_getLast? last (Option.mem_def.mpr hl)
    have htc : transferCount p.path =
        transferCount p.path.dropLast +
          (p.path.dropLast.getLast?.elim 0
            fun prev => if prev.line_id ≠ last.line_id then 1 else 0) := by
      conv_lhs => rw [← hsplit]
      rw [transferCount_concat]
    have hdist : wsub p.distance last.distance =
        (((p.path.dropLast.map Connection.distance).sum : Int) : WithTop Int) := by
      rw [h1, wsub, WithTop.map_coe]
      conv_lhs => rw [← hsplit]
      norm_cast
      simp
    have hlen : (p.path.length : Int) = (p.path.dropLast.length : Int) + 1 := by
      conv_lhs => rw [← hsplit]
      simp
    cases hprev : p.path.dropLast.getLast? with
    | none =>
      rw [Path.pop_eq_single p last hl hprev, Option.some.injEq,
        Prod.mk.injEq] at hpop
      obtain ⟨hq, _⟩ := hpop
      rw [← hq]
      refine PathInv.intro hdist h2 ?_ ?_
      · rw [htc, hprev] at h3
        simpa using h3
      · rw [hlen] at h4
        omega
    | some prev =>
      by_cases hne : last.line_id ≠ prev.line_id
      · cases htr : p.transfers.getLast? with
        | none =>
          rw [Path.pop_eq_transfer_fail p last prev hl hprev hne htr] at hpop
          exact Option.noConfusion hpop
        | some t =>
          rw [Path.pop_eq_transfer p last prev t hl hprev hne htr,
            Option.some.injEq, Prod.mk.injEq] at hpop
          obtain ⟨hq, _⟩ := hpop
          have htrne : p.transfers ≠ [] := by
            intro hnil; rw [hnil] at htr; exact Option.noConfusion htr
          have htrlen : 1 ≤ p.transfers.length := List.length_pos.mpr htrne
          rw [← hq]
          refine PathInv.intro hdist ?_ ?_ ?_
          · simp only [List.length_dropLast]
            omega
          · rw [htc, hprev] at h3
            simp only [Option.elim_some] at h3
            rw [if_pos (Ne.symm hne)] at h3
            push_cast at h3 ⊢
            omega
          · rw [hlen] at h4
            omega
      · rw [Path.pop_eq_stay p last prev hl hprev hne, Option.some.injEq,
          Prod.mk.injEq] at hpop
        obtain ⟨hq, _⟩ := hpop
        rw [← hq]
        refine PathInv.intro hdist h2 ?_ ?_
        · rw [htc, hprev] at h3
          simp only [Option.elim_some] at h3
          rw [if_neg (fun hh => hne (Ne.symm hh))] at h3
          push_cast at h3 ⊢
          omega
        · rw [hlen] at h4
          omega

/-- Claim C3 (amended): every path reachable from the empty working path
by `append` and successful `pop` satisfies the distance and transfer
invariants, and its `num_stations` equals the length of its connection
sequence (not length + 1). -/
theorem claim_C3_amended (p : Path) (h : p.Reachable) : PathInv p := by
  induction h with
  | empty =>
    refine ⟨by simp [emptyPath], by simp [emptyPath], by simp [emptyPath, transferCount],
      by simp [emptyPath]⟩
  | app c _ ih => exact pathInv_append _ c ih
  | popped _ hpop ih => exact pathInv_pop _ _ _ hpop ih

/-- Witness for the amended C3 at a concrete reachable path. -/
theorem claim_C3_witness : PathInv (emptyPath.append ⟨"A", "blue", 1⟩) :=
  claim_C3_amended _ (Path.Reachable.app _ Path.Reachable.empty)

/-- Counterexample to C3 as stated: the path obtained by appending one
connection to the empty working path is reachable, has one connection,
but carries `num_stations = 1`, not `1 + 1`: the station-count invariant
`num_stations == len(path) + 1` fails on every path the search builds. -/
theorem claim_C3_counterexample :
    Path.Reachable (emptyPath.append ⟨"A", "blue", 1⟩) ∧
    (emptyPath.append ⟨"A", "blue", 1⟩).num_stations = 1 ∧
    (emptyPath.append ⟨"A", "blue", 1⟩).path.length + 1 = 2 :=
  ⟨Path.Reachable.app _ Path.Reachable.empty, by decide, by decide⟩

/-- Claim C1: on the network built from
`{"red": ["D","A","B"], "blue": ["F","A","B"], "green": ["E","A","C","B"]}`,
`route_to("F","C")` returns the itinerary `F→A` on line blue (connection
target `A`) then `A→C` on line green, with distance 2, transfer count 1,
and the single recorded transfer at station `A` from blue to green. -/
theorem claim_C1 :
    routeTo netC1 20 "F" "C" =
      .ok ⟨[⟨"A", "blue", 1⟩, ⟨"C", "green", 1⟩], ((2 : Int) : WithTop Int), 2, 1,
           [⟨"A", "blue", "green"⟩]⟩ := by
  rfl

/-- Claim C5: `route_to("A","A")` on the example network raises
`IndexError` — the degenerate request falls through to the leaf check
`path.path[-1]` on an empty itinerary — instead of returning the
zero-connection, zero-transfer, zero-distance path the spec requires. -/
theorem claim_C5_bug : routeTo netC1 20 "A" "A" = .error .indexError := by
  rfl

/-- Counterexample to C6: on a network with an isolated station `X`,
`route_to("X","A")` returns the ordinary sentinel `Path` (no connections,
infinite distance, `maxsize` transfers) — there is no explicit `NoRoute`
result variant in the code. -/
theorem claim_C6_counterexample :
    routeTo netIso 20 "X" "A" = .ok sentinelPath ∧
    sentinelPath.path = [] ∧ sentinelPath.num_transfers = maxsize ∧
    sentinelPath.distance = ⊤ := by
  refine ⟨by rfl, rfl, rfl, rfl⟩

/-- Counterexample to C7: construction performs no validation — an empty
line map silently yields an empty network (no `MalformedNetwork` result),
and a one-station line raises an unhandled `IndexError`. -/
theorem claim_C7_counterexample :
    fromLineDict [] = .ok ⟨[]⟩ ∧
    fromLineDict [("red", ["A"])] = .error .indexError := by
  refine ⟨by rfl, by rfl⟩

/-- Counterexample to C8: on the isolated-station network, the start
station `X` has no lines (`S = ∅`) while the end station `A` lies on line
red (`E = {red}`), yet `_find_needed_lines("X","A")` returns the empty
set, not `S ∪ E = {red}`. -/
theorem claim_C8_counterexample :
    findNeededLines netIso 20 "X" "A" = .ok [] ∧
    (netIso.connectionsOf "X").map Connection.line_id = [] ∧
    (netIso.connectionsOf "A").map Connection.line_id = ["red"] := by
  refine ⟨by rfl, rfl, rfl⟩

/-- Unfolding of `routeToSt` when the relevance filter raises. -/
theorem routeToSt_error (net : Network) (fuel : Nat) (s o : NodeId)
    (ps : List NodeId) (e : PyErr) (h : findNeededLines net fuel s o = .error e) :
    routeToSt net fuel s o ps = (.error e, ps) := by
  unfold routeToSt
  split
  · rename_i e2 heq
    rw [h] at heq
    injection heq with he
    subst he
    rfl
  · rename_i needed heq
    rw [h] at heq
    exact Except.noConfusion heq

/-- Unfolding of `routeToSt` when the relevance filter returns a set. -/
theorem routeToSt_ok (net : Network) (fuel : Nat) (s o : NodeId)
    (ps : List NodeId) (needed : List LineId)
    (h : findNeededLines net fuel s o = .ok needed) :
    routeToSt net fuel s o ps =
      ((sortByLen (getAllRawPaths net fuel s o needed [] [] ps).1).foldlM
         (fun mp rp => getBestPath o fuel (getSequenceTree net rp [] none) mp emptyPath)
         sentinelPath,
       (getAllRawPaths net fuel s o needed [] [] ps).2) := by
  unfold routeToSt
  split
  · rename_i e heq
    rw [h] at heq
    exact Except.noConfusion heq
  · rename_i needed2 heq
    rw [h] at heq
    injection heq with he
    subst he
    rfl

/-- Once the BFS queue holds only the `"MARK"` level marker, every
iteration pops it and re-enqueues it, so the loop never exits: no amount
of fuel suffices. -/
theorem bfsLoop_mark_cycle (lg : List (LineId × List LineId)) (endl : LineId) :
    ∀ (fuel : Nat) (visited incr : List LineId) (length : Nat),
      bfsLoop lg endl fuel ["MARK"] visited incr length = .error .fuelOut
  | 0, _, _, _ => rfl
  | fuel + 1, v, _, len => bfsLoop_mark_cycle lg endl fuel v v (len + 1)

/-- A BFS failure propagates out of the inner pair loop. -/
theorem bfsInner_error (lg : List (LineId × List LineId)) (fuel : Nat)
    (startL endL : LineId) (rest : List LineId)
    (st : Nat × List LineId × List LineId) (e : PyErr)
    (h : bfsLoop lg endL fuel [startL, "MARK"] [startL] [] 1 = .error e) :
    bfsInner lg fuel startL (endL :: rest) st = .error e := by
  unfold bfsInner
  rw [h]

/-- A failure of the first inner loop propagates out of the outer loop. -/
theorem bfsOuter_error (lg : List (LineId × List LineId)) (fuel : Nat)
    (endLines : List LineId) (startL : LineId) (rest : List LineId)
    (st : Nat × List LineId × List LineId) (e : PyErr)
    (h : bfsInner lg fuel startL endLines
        (st.1, st.2.1, insertIfAbsent startL st.2.2) = .error e) :
    bfsOuter lg fuel endLines (startL :: rest) st = .error e := by
  unfold bfsOuter
  rw [h]

/-- A failure of the pair loops propagates out of `_find_needed_lines`. -/
theorem findNeededLines_error (net : Network) (fuel : Nat) (startN endN : NodeId)
    (e : PyErr)
    (h : bfsOuter (buildLineGraph net) fuel
        ((net.connectionsOf endN).map (·.line_id))
        ((net.connectionsOf startN).map (·.line_id)) (2 ^ 63 - 1, [], []) =
      .error e) :
    findNeededLines net fuel startN endN = .error e := by
  unfold findNeededLines
  rw [h]

/-- Claim C10: on the two-disjoint-line network, `route_to("A","D")` never
terminates — for every fuel bound the level-synchronised BFS inside
`_find_needed_lines` is still cycling on the re-enqueued `"MARK"` marker,
because line blue is unreachable from line red in the line-adjacency
graph, so the queue drains to `["MARK"]` and is refilled forever. -/
theorem claim_C10_bug :
    ∀ fuel : Nat, routeTo netDisc fuel "A" "D" = .error .fuelOut := by
  intro fuel
  have hb : bfsLoop (buildLineGraph netDisc) "blue" fuel ["red", "MARK"]
      ["red"] [] 1 = .error .fuelOut := by
    cases fuel with
    | zero => rfl
    | succ f => exact bfsLoop_mark_cycle (buildLineGraph netDisc) "blue" f ["red"] [] 1
  have hfind : findNeededLines netDisc fuel "A" "D" = .error .fuelOut := by
    apply findNeededLines_error
    have h1 : (netDisc.connectionsOf "A").map (·.line_id) = ["red"] := rfl
    have h2 : (netDisc.connectionsOf "D").map (·.line_id) = ["blue"] := rfl
    rw [h1, h2]
    exact bfsOuter_error _ _ _ _ _ _ _ (bfsInner_error _ _ _ _ _ _ _ hb)
  unfold routeTo
  rw [routeToSt_error netDisc fuel "A" "D" [] _ hfind]

/-- A fold whose step function preserves the second component preserves it
overall. -/
theorem foldl_preserve_snd {α β γ : Type} (f : β × γ → α → β × γ)
    (hf : ∀ st a, (f st a).2 = st.2) :
    ∀ (l : List α) (st : β × γ), (l.foldl f st).2 = st.2
  | [], _ => rfl
  | a :: l, st => by
    rw [List.foldl_cons, foldl_preserve_snd f hf l (f st a), hf]

/-- `_get_all_raw_paths` restores the shared `path` accumulator before
returning: every `path.append(start)` is matched by the final
`path.pop()`. -/
theorem getAllRawPaths_path_eq (net : Network) :
    ∀ (fuel : Nat) (start endN : NodeId) (needed : List LineId)
      (visited : List NodeId) (paths : List (List NodeId)) (path : List NodeId),
      (getAllRawPaths net fuel start endN needed visited paths path).2 = path
  | 0, _, _, _, _, _, _ => rfl
  | fuel + 1, start, endN, needed, visited, paths, path => by
    unfold getAllRawPaths
    by_cases h : start = endN
    · rw [if_pos h]
      simp
    · rw [if_neg h]
      have haux := foldl_preserve_snd
        (fun (st : List (List NodeId) × List NodeId) node =>
          if (net.connectionsOf start).any (fun c => decide (c.line_id ∈ needed)) then
            if node ∈ insertIfAbsent start visited then st
            else getAllRawPaths net fuel node endN needed
              (insertIfAbsent start visited) st.1 st.2
          else st)
        (by
          intro st node
          dsimp only
          by_cases h1 : (net.connectionsOf start).any
              (fun c => decide (c.line_id ∈ needed))
          · rw [if_pos h1]
            by_cases h2 : node ∈ insertIfAbsent start visited
            · rw [if_pos h2]
            · rw [if_neg h2]
              exact getAllRawPaths_path_eq net fuel node endN needed
                (insertIfAbsent start visited) st.1 st.2
          · rw [if_neg h1])
        (dedupFirst ((net.connectionsOf start).map (·.node_id)))
        (paths, path ++ [start])
      simp only [haux]
      simp

/-- The state `routeToSt` leaves the shared accumulator in is the state it
received. -/
theorem routeToSt_state (net : Network) (fuel : Nat) (s o : NodeId)
    (ps : List NodeId) : (routeToSt net fuel s o ps).2 = ps := by
  cases h : findNeededLines net fuel s o with
  | error e => rw [routeToSt_error net fuel s o ps e h]
  | ok needed =>
    rw [routeToSt_ok net fuel s o ps needed h]
    exact getAllRawPaths_path_eq net fuel s o needed [] [] ps

/-- Claim C9: a second `route_to` call with the same arguments on the same
network is undisturbed by the first — the shared mutable default argument
`path` of `_get_all_raw_paths` is restored to empty by the first call, so
the second call returns the very same result (in particular the same
transfer count and distance). -/
theorem claim_C9 (net : Network) (fuel : Nat) (s o : NodeId) :
    routeToSt net fuel s o ((routeToSt net fuel s o []).2) =
      routeToSt net fuel s o [] ∧
    (routeToSt net fuel s o []).2 = [] := by
  have h := routeToSt_state net fuel s o []
  rw [h]
  exact ⟨rfl, rfl⟩

/-- An insertion that finds the element absent appends it. -/
theorem insertIfAbsent_of_not_mem {α : Type} [DecidableEq α] {x : α}
    {s : List α} (h : x ∉ s) : insertIfAbsent x s = s ++ [x] := by
  unfold insertIfAbsent
  rw [if_neg h]

/-- `insertIfAbsent` preserves `Nodup`. -/
theorem insertIfAbsent_nodup {α : Type} [DecidableEq α] (x : α) (s : List α)
    (h : s.Nodup) : (insertIfAbsent x s).Nodup := by
  unfold insertIfAbsent
  split
  · exact h
  · rename_i hx
    simp [List.nodup_append, h, hx]

/-- Folding `insertIfAbsent` over a duplicate-free extension appends it. -/
theorem foldl_insertIfAbsent_of_nodup {α : Type} [DecidableEq α] :
    ∀ (l acc : List α), (acc ++ l).Nodup →
      l.foldl (fun a x => insertIfAbsent x a) acc = acc ++ l
  | [], acc, _ => by simp
  | x :: xs, acc, h => by
    have hx : x ∉ acc := by
      intro hmem
      exact (List.disjoint_of_nodup_append h) hmem (List.mem_cons_self x xs)
    rw [List.foldl_cons, insertIfAbsent_of_not_mem hx,
      foldl_insertIfAbsent_of_nodup xs (acc ++ [x]) (by simpa using h)]
    simp

/-- `dedupFirst` yields a duplicate-free list. -/
theorem dedupFirst_nodup {α : Type} [DecidableEq α] (l : List α) :
    (dedupFirst l).Nodup := by
  suffices h : ∀ (l acc : List α), acc.Nodup →
      (l.foldl (fun a x => insertIfAbsent x a) acc).Nodup by
    exact h l [] List.nodup_nil
  intro l
  induction l with
  | nil => intro acc h; exact h
  | cons x xs ih => intro acc h; exact ih _ (insertIfAbsent_nodup x acc h)

/-- Updating the empty set with a duplicate-free list reproduces it. -/
theorem unionList_nil_of_nodup {α : Type} [DecidableEq α] (l : List α)
    (h : l.Nodup) : unionList [] l = l := by
  unfold unionList
  simpa using foldl_insertIfAbsent_of_nodup l [] (by simpa using h)

/-- With no end lines at all, the pair loops never run a BFS and only
collect the start lines into `startend`. -/
theorem bfsOuter_no_ends (lg : List (LineId × List LineId)) (fuel : Nat) :
    ∀ (startLs : List LineId) (m : Nat) (poss se : List LineId),
      bfsOuter lg fuel [] startLs (m, poss, se) =
        .ok (m, poss, startLs.foldl (fun acc x => insertIfAbsent x acc) se)
  | [], _, _, _ => rfl
  | s :: rest, m, poss, se =>
    bfsOuter_no_ends lg fuel rest m poss (insertIfAbsent s se)

/-- Claim C8 (amended): in the degenerate cases the relevant-line set is
not `S ∪ E`.  If the start station has no lines (`S = ∅`) the result is
empty — even when `E` is not — because the outer pair loop never runs; if
the end station has no lines (`E = ∅`) the result is exactly `S`
(first-occurrence deduplicated), collected via `startend`. -/
theorem claim_C8_amended (net : Network) (fuel : Nat) (s e : NodeId) :
    ((net.connectionsOf s).map (·.line_id) = [] →
      findNeededLines net fuel s e = .ok []) ∧
    ((net.connectionsOf e).map (·.line_id) = [] →
      findNeededLines net fuel s e =
        .ok (dedupFirst ((net.connectionsOf s).map (·.line_id)))) := by
  constructor
  · intro hS
    unfold findNeededLines
    rw [hS]
    rfl
  · intro hE
    unfold findNeededLines
    rw [hE]
    rw [bfsOuter_no_ends (buildLineGraph net) fuel
      ((net.connectionsOf s).map (·.line_id)) (2 ^ 63 - 1) [] []]
    exact congrArg Except.ok
      (unionList_nil_of_nodup _ (dedupFirst_nodup _))

/-- Witness for the amended C8 on the isolated-station network, in both
degenerate directions. -/
theorem claim_C8_witness :
    ((netIso.connectionsOf "X").map (·.line_id) = [] ∧
      findNeededLines netIso 5 "X" "A" = .ok []) ∧
    ((netIso.connectionsOf "X").map (·.line_id) = [] ∧
      findNeededLines netIso 5 "A" "X" =
        .ok (dedupFirst ((netIso.connectionsOf "A").map (·.line_id)))) :=
  ⟨⟨rfl, (claim_C8_amended netIso 5 "X" "A").1 rfl⟩,
   ⟨rfl, (claim_C8_amended netIso 5 "A" "X").2 rfl⟩⟩

/-- Claim C6 (amended): when raw-path enumeration yields an empty set,
`route_to` returns the ordinary sentinel `Path` — empty connection list,
infinite distance, `maxsize` transfer count — rather than an explicit
`NoRoute` variant; it does not crash in that case. -/
theorem claim_C6_amended (net : Network) (fuel : Nat) (s o : NodeId)
    (needed : List LineId) (h1 : findNeededLines net fuel s o = .ok needed)
    (h2 : (getAllRawPaths net fuel s o needed [] [] []).1 = []) :
    routeTo net fuel s o = .ok sentinelPath := by
  unfold routeTo
  rw [routeToSt_ok net fuel s o [] needed h1, h2]
  rfl

/-- Witness for the amended C6 on the isolated-station network. -/
theorem claim_C6_witness :
    findNeededLines netIso 20 "X" "A" = .ok [] ∧
    (getAllRawPaths netIso 20 "X" "A" [] [] [] []).1 = [] ∧
    routeTo netIso 20 "X" "A" = .ok sentinelPath :=
  ⟨rfl, rfl, claim_C6_amended netIso 20 "X" "A" [] rfl rfl⟩

/-- Inversion for nonempty branches. -/
theorem SeqTree.branch_cons_iff (entries : List (Connection × SeqTree))
    (c : Connection) (cs : List Connection) :
    SeqTree.Branch (.mk entries) (c :: cs) ↔
      ∃ sub, (c, sub) ∈ entries ∧ SeqTree.Branch sub cs := by
  constructor
  · intro h
    cases h with
    | cons hmem hb => exact ⟨_, hmem, hb⟩
  · rintro ⟨sub, hmem, hb⟩
    exact SeqTree.Branch.cons hmem hb

/-- The branches of `_get_sequence_tree`'s output are exactly the valid
line assignments, for any intermediate visited-set and current-line
state. -/
theorem branch_iff_validAssign (net : Network) :
    ∀ (cs : List Connection) (raw : List NodeId) (lv : List LineId)
      (cl : Option LineId),
      SeqTree.Branch (getSequenceTree net raw lv cl) cs ↔
        ValidAssign net raw cl lv cs
  | [], raw, lv, cl => by
    simp only [ValidAssign]
    exact iff_true_intro (SeqTree.Branch.nil _)
  | c :: cs, [], lv, cl => by
    simp only [ValidAssign, getSequenceTree]
    constructor
    · intro h
      rcases (SeqTree.branch_cons_iff [] c cs).mp h with ⟨sub, hmem, _⟩
      exact absurd hmem (List.not_mem_nil _)
    · exact False.elim
  | c :: cs, [n], lv, cl => by
    simp only [ValidAssign, getSequenceTree]
    constructor
    · intro h
      rcases (SeqTree.branch_cons_iff [] c cs).mp h with ⟨sub, hmem, _⟩
      exact absurd hmem (List.not_mem_nil _)
    · exact False.elim
  | c :: cs, n0 :: n1 :: rest, lv, cl => by
    have ih := branch_iff_validAssign net cs
    simp only [ValidAssign, getSequenceTree]
    rw [SeqTree.branch_cons_iff]
    constructor
    · rintro ⟨sub, hmem, hb⟩
      rw [List.mem_filterMap] at hmem
      obtain ⟨a, ha, hfa⟩ := hmem
      by_cases hc : a.node_id = n1 ∧ (cl = none ∨ some a.line_id = cl ∨ a.line_id ∉ lv)
      · rw [if_pos hc] at hfa
        rw [Option.some.injEq, Prod.mk.injEq] at hfa
        obtain ⟨hac, hsub⟩ := hfa
        subst hac
        rw [← hsub] at hb
        exact ⟨ha, hc.1, hc.2, (ih _ _ _).mp hb⟩
      · rw [if_neg hc] at hfa
        exact Option.noConfusion hfa
    · rintro ⟨h1, h2, h3, h4⟩
      refine ⟨getSequenceTree net (n1 :: rest) (insertIfAbsent c.line_id lv)
        (some c.line_id), ?_, (ih _ _ _).mpr h4⟩
      rw [List.mem_filterMap]
      exact ⟨c, h1, by rw [if_pos ⟨h2, h3⟩]⟩

/-- Claim C4: the sequence tree built for a raw station sequence has
exactly the valid line-assignment branches — every root-to-node branch
assigns to each hop a connection of `n_i` targeting `n_{i+1}` whose line
either stays on the previous edge's line or has never appeared earlier on
the branch (so an abandoned line is never re-boarded), and every such
valid assignment occurs as a branch. -/
theorem claim_C4 (net : Network) (raw : List NodeId) (cs : List Connection) :
    SeqTree.Branch (getSequenceTree net raw [] none) cs ↔
      ValidAssign net raw none [] cs :=
  branch_iff_validAssign net cs raw [] none

/-- One construction position never raises on a well-formed line and
produces exactly the spec-side contribution. -/
theorem lineConnsAt_eq_contrib (lid : LineId) (stations : List NodeId)
    (node : NodeId) (i : Nat) (hlen : 2 ≤ stations.length) :
    lineConnsAt lid stations node i = .ok (contribAt lid stations node i) := by
  unfold lineConnsAt contribAt
  by_cases hmem : stations.get? i = some node
  · rw [if_pos hmem, if_pos hmem]
    have hi : i < stations.length := by
      by_contra hns
      rw [List.get?_eq_none.mpr (by omega)] at hmem
      exact Option.noConfusion hmem
    by_cases h0 : i = 0
    · rw [if_pos h0, if_pos h0]
      obtain ⟨x, hx⟩ : ∃ x, stations.get? (i + 1) = some x := by
        cases hx : stations.get? (i + 1) with
        | none =>
          have := List.get?_eq_none.mp hx
          exact absurd this (by omega)
        | some x => exact ⟨x, rfl⟩
      rw [hx]
      rfl
    · rw [if_neg h0, if_neg h0]
      by_cases hlast : i = stations.length - 1
      · rw [if_pos hlast, if_pos hlast]
        obtain ⟨x, hx⟩ : ∃ x, stations.get? (i - 1) = some x := by
          cases hx : stations.get? (i - 1) with
          | none =>
            have := List.get?_eq_none.mp hx
            exact absurd this (by omega)
          | some x => exact ⟨x, rfl⟩
        rw [hx]
        rfl
      · rw [if_neg hlast, if_neg hlast]
        obtain ⟨x, hx⟩ : ∃ x, stations.get? (i - 1) = some x := by
          cases hx : stations.get? (i - 1) with
          | none =>
            have := List.get?_eq_none.mp hx
            exact absurd this (by omega)
          | some x => exact ⟨x, rfl⟩
        obtain ⟨y, hy⟩ : ∃ y, stations.get? (i + 1) = some y := by
          cases hy : stations.get? (i + 1) with
          | none =>
            have := List.get?_eq_none.mp hy
            exact absurd this (by omega)
          | some y => exact ⟨y, rfl⟩
        rw [hx, hy]
        rfl
  · rw [if_neg hmem, if_neg hmem]

/-- A monadic fold whose every step succeeds by appending a block computes
the concatenation of the blocks. -/
theorem foldlM_append_shape {α β : Type} (step : List β → α → Except PyErr (List β))
    (g : α → List β) :
    ∀ (l : List α) (acc : List β),
      (∀ x ∈ l, ∀ a, step a x = .ok (a ++ g x)) →
      l.foldlM step acc = .ok (acc ++ l.flatMap g)
  | [], acc, _ => by
    have hnil : acc ++ ([] : List α).flatMap g = acc := by simp
    rw [hnil]
    rfl
  | x :: xs, acc, h => by
    rw [List.foldlM_cons, h x (List.mem_cons_self x xs) acc]
    show List.foldlM step (acc ++ g x) xs = .ok (acc ++ (x :: xs).flatMap g)
    rw [foldlM_append_shape step g xs (acc ++ g x)
      (fun y hy a => h y (List.mem_cons_of_mem x hy) a)]
    simp

/-- On a well-formed line map the per-node construction loop succeeds and
produces exactly the spec-side connection list. -/
theorem connectionsForNode_eq (dict : List (LineId × List NodeId)) (node : NodeId)
    (h : ∀ p ∈ dict, 2 ≤ p.2.length) :
    connectionsForNode dict node = .ok (builtConns dict node) := by
  unfold connectionsForNode builtConns
  apply foldlM_append_shape
  intro p hp acc
  apply foldlM_append_shape
  intro i _ a
  dsimp only
  rw [lineConnsAt_eq_contrib p.1 p.2 node i (h p hp)]
  rfl

/-- Claim C7 (amended): construction never produces a `MalformedNetwork`
result — an empty line map yields an empty network and a one-station line
raises an unhandled `IndexError` (see the counterexample) — but for every
line map whose lines all have at least 2 stations, construction succeeds
and gives every node exactly the spec-described connections: per line and
matching position, one unit-distance connection to the successor at the
first station, one to the predecessor at the last, and both for interior
stations. -/
theorem claim_C7_amended (dict : List (LineId × List NodeId))
    (h : ∀ p ∈ dict, 2 ≤ p.2.length) :
    fromLineDict dict =
      .ok ⟨(orderedNodes dict).map fun n => (n, (⟨n, builtConns dict n⟩ : Node))⟩ := by
  unfold fromLineDict
  have hfold := foldlM_append_shape (β := NodeId × Node)
    (fun acc n => do
      let cs ← connectionsForNode dict n
      pure (acc ++ [(n, (⟨n, cs⟩ : Node))]))
    (fun n => [(n, (⟨n, builtConns dict n⟩ : Node))])
    (orderedNodes dict) []
    (by
      intro n _ a
      dsimp only
      rw [connectionsForNode_eq dict n h]
      rfl)
  rw [hfold]
  have hm : ∀ (l : List NodeId),
      (l.flatMap fun n => [(n, (⟨n, builtConns dict n⟩ : Node))]) =
        l.map fun n => (n, (⟨n, builtConns dict n⟩ : Node)) := by
    intro l
    induction l with
    | nil => rfl
    | cons x xs ih => simp [ih]
  exact congrArg (fun nd => Except.ok (⟨nd⟩ : Network)) (hm _)

/-- Witness for the amended C7 on the example line map. -/
theorem claim_C7_witness :
    (∀ p ∈ exDict, 2 ≤ p.2.length) ∧
    fromLineDict exDict =
      .ok ⟨(orderedNodes exDict).map fun n => (n, (⟨n, builtConns exDict n⟩ : Node))⟩ :=
  ⟨by decide, claim_C7_amended exDict (by decide)⟩

end Trains
